import Mathlib

/-!
Verification of the `Charge` measurement type (`src/charge.rs`) of
rust-measurements.

The Rust code stores one `f64` per `Charge` value and performs only
arithmetic on it.  We embed `f64` as the type `F` below: exact rationals
extended with a NaN value and two signed infinities.  Rounding, overflow
to infinity and the sign of zero are abstracted away (finite arithmetic is
exact), while propagation of NaN and infinities and the comparison
semantics (NaN unordered and unequal) are modelled faithfully.

The `Measurement` trait's provided method `pick_appropriate_units` and the
`implement_measurement!` macro are declared in a module of this repository
that is not part of the sources given here; those definitions are modelled
from the specification and are marked as such in their doc comments.
-/

namespace Measurements

/-- Embedding of `f64`: a finite value (an exact rational), NaN, or a signed
infinity (`true` = positive infinity, `false` = negative infinity). -/
inductive F where
  | fin : ℚ → F
  | nan : F
  | inf : Bool → F
deriving DecidableEq

namespace F

/-- IEEE-style addition on `F` (finite arithmetic exact). -/
def add : F → F → F
  | nan, _ => nan
  | _, nan => nan
  | fin a, fin b => fin (a + b)
  | fin _, inf s => inf s
  | inf s, fin _ => inf s
  | inf s, inf t => if s = t then inf s else nan

/-- IEEE-style negation on `F`. -/
def neg : F → F
  | nan => nan
  | fin a => fin (-a)
  | inf s => inf (!s)

/-- IEEE-style subtraction on `F`, as addition of the negation. -/
def sub (a b : F) : F := a.add b.neg

/-- IEEE-style multiplication on `F` (finite arithmetic exact;
`0 * inf = nan`). -/
def mul : F → F → F
  | nan, _ => nan
  | _, nan => nan
  | fin a, fin b => fin (a * b)
  | fin a, inf s => if a = 0 then nan else inf (decide (0 < a) == s)
  | inf s, fin b => if b = 0 then nan else inf (s == decide (0 < b))
  | inf s, inf t => inf (s == t)

/-- IEEE-style division on `F` (finite arithmetic exact; `x / 0` is a signed
infinity for `x ≠ 0` and `0 / 0 = nan`; `inf / inf = nan`). -/
def div : F → F → F
  | nan, _ => nan
  | _, nan => nan
  | fin a, fin b =>
      if b = 0 then (if a = 0 then nan else inf (decide (0 < a)))
      else fin (a / b)
  | fin _, inf _ => fin 0
  | inf s, fin b => if b = 0 then inf s else inf (s == decide (0 < b))
  | inf _, inf _ => nan

/-- IEEE-style absolute value on `F`. -/
def abs : F → F
  | nan => nan
  | fin a => fin (if a < 0 then -a else a)
  | inf _ => inf true

/-- IEEE-style equality test: NaN is unequal to everything. -/
def feq : F → F → Bool
  | fin a, fin b => decide (a = b)
  | inf s, inf t => s == t
  | _, _ => false

/-- IEEE-style strict order test: NaN is unordered. -/
def lt : F → F → Bool
  | nan, _ => false
  | _, nan => false
  | fin a, fin b => decide (a < b)
  | fin _, inf s => s
  | inf s, fin _ => !s
  | inf s, inf t => !s && t

/-- IEEE-style non-strict order test: NaN is unordered. -/
def le : F → F → Bool
  | nan, _ => false
  | _, nan => false
  | fin a, fin b => decide (a ≤ b)
  | fin _, inf s => s
  | inf s, fin _ => !s
  | inf s, inf t => !s || t

end F

/-- `pub const SPEED_OF_LIGHT: f64 = 299_792_458.0;` (exact in `f64`). -/
def SPEED_OF_LIGHT : ℚ := 299792458

/-- `pub struct Charge { coulombs: f64 }` -/
structure Charge where
  coulombs : F
deriving DecidableEq

namespace Charge

/-- `from_coulombs`: stores the value unchanged. -/
def from_coulombs (coulombs : F) : Charge := ⟨coulombs⟩

/-- `from_abcoulombs`: `Self::from_coulombs(abcoulombs * 10.0)`. -/
def from_abcoulombs (abcoulombs : F) : Charge :=
  from_coulombs (abcoulombs.mul (F.fin 10))

/-- `from_statcoulombs`:
`Self::from_coulombs(statcoulombs / (10.0 * SPEED_OF_LIGHT))`. -/
def from_statcoulombs (statcoulombs : F) : Charge :=
  from_coulombs (statcoulombs.div (F.fin (10 * SPEED_OF_LIGHT)))

/-- `as_coulombs`: reads the stored value back with no arithmetic. -/
def as_coulombs (c : Charge) : F := c.coulombs

/-- `as_abcoulombs`: `self.coulombs / 10.0`. -/
def as_abcoulombs (c : Charge) : F := c.coulombs.div (F.fin 10)

/-- `as_statcoulombs`: `self.coulombs * (10.0 * SPEED_OF_LIGHT)`. -/
def as_statcoulombs (c : Charge) : F := c.coulombs.mul (F.fin (10 * SPEED_OF_LIGHT))

/-- `Measurement::as_base_units for Charge`: returns `self.coulombs`. -/
def as_base_units (c : Charge) : F := c.coulombs

/-- `Measurement::from_base_units for Charge`: `Self::from_coulombs(units)`. -/
def from_base_units (units : F) : Charge := from_coulombs units

/-- `Measurement::get_base_units_name for Charge`: `"C"`. -/
def get_base_units_name : String := "C"

end Charge

/-- The ascending unit list built inside `Charge::get_appropriate_units`
(multipliers kept as exact powers of ten). -/
def chargeUnitsList : List (String × ℚ) :=
  [("fC", 1 / 10 ^ 15),
   ("pC", 1 / 10 ^ 12),
   ("nC", 1 / 10 ^ 9),
   ("µC", 1 / 10 ^ 6),
   ("mC", 1 / 10 ^ 3),
   ("C", 1),
   ("kC", 10 ^ 3),
   ("MC", 10 ^ 6),
   ("GC", 10 ^ 9),
   ("TC", 10 ^ 12),
   ("PC", 10 ^ 15),
   ("EC", 10 ^ 18)]

/-- Last element of a list, or the supplied default when the list is empty
(structural-recursion version of `List.getLastD`). -/
def lastD (dflt : α) : List α → α
  | [] => dflt
  | a :: as => lastD a as

/-- Modelled from the spec: the `Measurement` trait's provided method
`pick_appropriate_units` is declared in the repository's measurement module,
which is not among the given sources.  Per the spec it takes the value's
absolute magnitude in base units and an ascending-by-multiplier candidate
list, and returns the last entry whose multiplier is ≤ the magnitude,
falling back to the first entry when no multiplier qualifies. -/
def pick_appropriate_units (value : F) (list : List (String × ℚ)) :
    String × ℚ :=
  lastD (list.headD ("", 0))
    (list.filter (fun p => F.le (F.fin p.2) value.abs))

/-- `Charge::get_appropriate_units`: applies `pick_appropriate_units` to the
base-unit value and the fixed ascending unit list. -/
def Charge.get_appropriate_units (c : Charge) : String × ℚ :=
  pick_appropriate_units c.as_base_units chargeUnitsList

/-- Modelled from the spec: `implement_measurement! { Charge }` expands to the
shared arithmetic implementation, declared in the repository's measurement
module, which is not among the given sources.  Per the spec, `+` adds the
base-unit values and wraps the result via `from_base_units`. -/
def Charge.add (a b : Charge) : Charge :=
  Charge.from_base_units (F.add a.as_base_units b.as_base_units)

/-- Modelled from the spec: `-` between two quantities subtracts the base-unit
values and wraps the result via `from_base_units`. -/
def Charge.sub (a b : Charge) : Charge :=
  Charge.from_base_units (F.sub a.as_base_units b.as_base_units)

/-- Modelled from the spec: `quantity * scalar` scales the base-unit value. -/
def Charge.mul (a : Charge) (k : F) : Charge :=
  Charge.from_base_units (F.mul a.as_base_units k)

/-- Modelled from the spec: `scalar * quantity` scales the base-unit value
(the commuted operand order is also supported). -/
def Charge.scalarMul (k : F) (a : Charge) : Charge :=
  Charge.from_base_units (F.mul k a.as_base_units)

/-- Modelled from the spec: `quantity / scalar` scales the base-unit value. -/
def Charge.div (a : Charge) (k : F) : Charge :=
  Charge.from_base_units (F.div a.as_base_units k)

/-- Modelled from the spec: `quantity / quantity` yields the dimensionless
ratio of the base-unit values, not a new quantity. -/
def Charge.divCharge (a b : Charge) : F :=
  F.div a.as_base_units b.as_base_units

/-- Modelled from the spec: `==` delegates to float equality of the
base-unit values. -/
def Charge.eq (a b : Charge) : Bool :=
  F.feq a.as_base_units b.as_base_units

/-- Modelled from the spec: `<` delegates to float comparison of the
base-unit values. -/
def Charge.lt (a b : Charge) : Bool :=
  F.lt a.as_base_units b.as_base_units

/-- Modelled from the spec: `<=` delegates to float comparison of the
base-unit values. -/
def Charge.le (a b : Charge) : Bool :=
  F.le a.as_base_units b.as_base_units

/-- Modelled from the spec: `>` delegates to float comparison of the
base-unit values. -/
def Charge.gt (a b : Charge) : Bool :=
  F.lt b.as_base_units a.as_base_units

/-- Modelled from the spec: `>=` delegates to float comparison of the
base-unit values. -/
def Charge.ge (a b : Charge) : Bool :=
  F.le b.as_base_units a.as_base_units

/-! ### Helper lemmas about `F` -/

theorem F.mul_fcomm (x y : F) : F.mul x y = F.mul y x := by
  rcases x with a | _ | s <;> rcases y with b | _ | t <;>
    simp [F.mul, mul_comm, Bool.beq_comm]

theorem F.div_mul_cancel_const (c : ℚ) (hc : 0 < c) (x y : F) :
    F.div (x.mul (F.fin c)) (y.mul (F.fin c)) = F.div x y := by
  have hc' : c ≠ 0 := hc.ne'
  rcases x with a | _ | s <;> rcases y with b | _ | t <;>
    simp [F.div, F.mul, hc', hc, mul_eq_zero]
  by_cases hb : b = 0
  · by_cases ha : a = 0 <;>
      simp [ha, hb, mul_pos_iff_of_pos_right hc]
  · simp [hb, mul_div_mul_right _ _ hc']

theorem F.div_div_cancel_const (c : ℚ) (hc : 0 < c) (x y : F) :
    F.div (x.div (F.fin c)) (y.div (F.fin c)) = F.div x y := by
  have hc' : c ≠ 0 := hc.ne'
  rcases x with a | _ | s <;> rcases y with b | _ | t <;>
    simp [F.div, hc', hc, div_eq_zero_iff]
  by_cases hb : b = 0
  · by_cases ha : a = 0 <;>
      simp [ha, hb, div_pos_iff_of_pos_right hc]
  · have h : a / c / (b / c) = a / b := by field_simp
    simp [hb, h]

/-! ### Helper lemmas about `lastD` and `pick_appropriate_units` -/

theorem lastD_eq_default_or_mem (d : α) (l : List α) :
    lastD d l = d ∨ lastD d l ∈ l := by
  induction l generalizing d with
  | nil => exact Or.inl rfl
  | cons a as ih =>
      rcases ih a with h | h
      · exact Or.inr (by simp [lastD, h])
      · exact Or.inr (by simp [lastD, h])

theorem lastD_mem (d : α) (l : List α) (h : l ≠ []) : lastD d l ∈ l := by
  cases l with
  | nil => exact absurd rfl h
  | cons a as =>
      rcases lastD_eq_default_or_mem a as with h' | h'
      · simp [lastD, h']
      · simp [lastD, h']

theorem rel_lastD {R : α → α → Prop} (d : α) (l : List α)
    (hp : l.Pairwise R) (x : α) (hx : x ∈ l) :
    R x (lastD d l) ∨ x = lastD d l := by
  induction l generalizing d with
  | nil => cases hx
  | cons a as ih =>
      rcases List.pairwise_cons.1 hp with ⟨ha, hp'⟩
      rcases List.mem_cons.1 hx with hxa | hxas
      · subst hxa
        cases as with
        | nil => exact Or.inr rfl
        | cons b bs =>
            exact Or.inl (by simpa [lastD] using ha _ (lastD_mem x (b :: bs) (by simp)))
      · simpa [lastD] using ih a hp' hxas

theorem pick_mem (v : F) (l : List (String × ℚ)) (hl : l ≠ []) :
    pick_appropriate_units v l ∈ l := by
  unfold pick_appropriate_units
  rcases lastD_eq_default_or_mem (l.headD ("", 0))
      (l.filter (fun p => F.le (F.fin p.2) v.abs)) with h | h
  · rw [h]
    cases l with
    | nil => exact absurd rfl hl
    | cons a as => simp
  · exact List.mem_filter.1 h |>.1

theorem pick_max (v : F) (l : List (String × ℚ))
    (hs : l.Pairwise (fun a b => a.2 ≤ b.2)) :
    ∀ p ∈ l, F.le (F.fin p.2) v.abs = true →
      p.2 ≤ (pick_appropriate_units v l).2 := by
  intro p hp hle
  have hpf : p ∈ l.filter (fun p => F.le (F.fin p.2) v.abs) :=
    List.mem_filter.2 ⟨hp, hle⟩
  have hps : (l.filter (fun p => F.le (F.fin p.2) v.abs)).Pairwise
      (fun a b => a.2 ≤ b.2) := hs.filter _
  unfold pick_appropriate_units
  rcases rel_lastD (l.headD ("", 0)) _ hps p hpf with h | h
  · exact h
  · exact le_of_eq (congrArg Prod.snd h)

theorem pick_sat_or_head (v : F) (l : List (String × ℚ)) :
    F.le (F.fin (pick_appropriate_units v l).2) v.abs = true ∨
      pick_appropriate_units v l = l.headD ("", 0) := by
  unfold pick_appropriate_units
  rcases lastD_eq_default_or_mem (l.headD ("", 0))
      (l.filter (fun p => F.le (F.fin p.2) v.abs)) with h | h
  · exact Or.inr h
  · exact Or.inl (List.mem_filter.1 h).2

theorem pick_none_head (v : F) (l : List (String × ℚ))
    (h : ∀ p ∈ l, F.le (F.fin p.2) v.abs = false) :
    pick_appropriate_units v l = l.headD ("", 0) := by
  unfold pick_appropriate_units
  have : l.filter (fun p => F.le (F.fin p.2) v.abs) = [] :=
    List.filter_eq_nil_iff.2 (by simpa using h)
  rw [this]
  rfl

theorem charge_units_sorted :
    chargeUnitsList.Pairwise (fun a b => a.2 ≤ b.2) := by
  norm_num [chargeUnitsList, List.pairwise_cons]

/-! ### Claim theorems -/

/-- C1: `get_appropriate_units()` selects from the fixed ascending list of
(symbol, multiplier) pairs the last entry whose multiplier is ≤ the absolute
magnitude of the base-unit value, falling back to the first entry
`("fC", 1e-15)` when no multiplier qualifies; magnitude 0 returns the
smallest unit, a magnitude exactly equal to a listed multiplier returns that
multiplier's unit, a magnitude strictly between two multipliers returns the
smaller of the two, and a magnitude exceeding `1e18` returns
`("EC", 1e18)`. -/
theorem charge_get_appropriate_units_spec :
    (∀ c : Charge,
      c.get_appropriate_units ∈ chargeUnitsList ∧
      (∀ p ∈ chargeUnitsList,
        F.le (F.fin p.2) c.as_base_units.abs = true →
          p.2 ≤ c.get_appropriate_units.2) ∧
      (F.le (F.fin c.get_appropriate_units.2) c.as_base_units.abs = true ∨
        c.get_appropriate_units = ("fC", 1 / 10 ^ 15)) ∧
      ((∀ p ∈ chargeUnitsList, F.le (F.fin p.2) c.as_base_units.abs = false) →
        c.get_appropriate_units = ("fC", 1 / 10 ^ 15))) ∧
    (Charge.from_coulombs (F.fin 0)).get_appropriate_units = ("fC", 1 / 10 ^ 15) ∧
    (Charge.from_coulombs (F.fin (1 / 1000))).get_appropriate_units = ("mC", 1 / 10 ^ 3) ∧
    (Charge.from_coulombs (F.fin 500)).get_appropriate_units = ("C", 1) ∧
    (Charge.from_coulombs (F.fin (-500))).get_appropriate_units = ("C", 1) ∧
    (Charge.from_coulombs (F.fin (10 ^ 19))).get_appropriate_units = ("EC", 10 ^ 18) := by
  refine ⟨fun c => ⟨?_, ?_, ?_, ?_⟩, ?_, ?_, ?_, ?_, ?_⟩
  · exact pick_mem c.as_base_units chargeUnitsList (by simp [chargeUnitsList])
  · exact pick_max c.as_base_units chargeUnitsList charge_units_sorted
  · rcases pick_sat_or_head c.as_base_units chargeUnitsList with h | h
    · exact Or.inl h
    · exact Or.inr (by simpa [Charge.get_appropriate_units, chargeUnitsList] using h)
  · intro h
    have := pick_none_head c.as_base_units chargeUnitsList h
    simpa [Charge.get_appropriate_units, chargeUnitsList] using this
  all_goals
    norm_num [Charge.get_appropriate_units, Charge.from_coulombs, Charge.as_base_units,
      pick_appropriate_units, chargeUnitsList, List.filter, lastD, F.le, F.abs]

/-- Witness for C1: applied at the concrete charge with base-unit value `+∞`
and the list entry `("EC", 1e18)`, whose multiplier qualifies, the maximality
part yields `1e18 ≤` the selected multiplier. -/
theorem charge_get_appropriate_units_spec_witness :
    (10 ^ 18 : ℚ) ≤ (Charge.from_coulombs (F.inf true)).get_appropriate_units.2 :=
  (charge_get_appropriate_units_spec.1 (Charge.from_coulombs (F.inf true))).2.1
    ("EC", 10 ^ 18) (by simp [chargeUnitsList]) rfl

/-- C2: the statcoulomb conversions are linear transforms through the
constant `SPEED_OF_LIGHT = 299792458`: `from_statcoulombs(v).as_coulombs()`
equals `v / (10 * 299792458)` and `from_coulombs(v).as_statcoulombs()` equals
`v * (10 * 299792458)`; in particular
`from_coulombs(0.0002).as_statcoulombs() = 599584.916` (exactly, in the
rational model of `f64`). -/
theorem charge_statcoulomb_conversions :
    SPEED_OF_LIGHT = 299792458 ∧
    (∀ v : F,
      (Charge.from_statcoulombs v).as_coulombs = F.div v (F.fin (10 * 299792458)) ∧
      (Charge.from_coulombs v).as_statcoulombs = F.mul v (F.fin (10 * 299792458))) ∧
    (Charge.from_coulombs (F.fin 0.0002)).as_statcoulombs = F.fin 599584.916 := by
  refine ⟨rfl, fun v => ⟨rfl, rfl⟩, ?_⟩
  norm_num [Charge.from_coulombs, Charge.as_statcoulombs, F.mul, SPEED_OF_LIGHT]

/-- C3: the abcoulomb conversions are the fixed linear transform with
ratio 10: `from_abcoulombs(v).as_coulombs()` equals `v * 10` and
`from_coulombs(v).as_abcoulombs()` equals `v / 10`; in particular
`from_abcoulombs(1.234).as_coulombs() = 12.34` and
`from_coulombs(10000).as_abcoulombs() = 1000`. -/
theorem charge_abcoulomb_conversions :
    (∀ v : F,
      (Charge.from_abcoulombs v).as_coulombs = F.mul v (F.fin 10) ∧
      (Charge.from_coulombs v).as_abcoulombs = F.div v (F.fin 10)) ∧
    (Charge.from_abcoulombs (F.fin 1.234)).as_coulombs = F.fin 12.34 ∧
    (Charge.from_coulombs (F.fin 10000)).as_abcoulombs = F.fin 1000 := by
  refine ⟨fun v => ⟨rfl, rfl⟩, ?_, ?_⟩ <;>
    norm_num [Charge.from_abcoulombs, Charge.from_coulombs, Charge.as_coulombs,
      Charge.as_abcoulombs, F.mul, F.div]

/-- C4: for every finite value `x` and each supported unit (coulombs,
abcoulombs, statcoulombs), `from_<unit>(x).as_<unit>()` returns `x`
(exactly, in the rational model of `f64`, hence within any floating-point
tolerance). -/
theorem charge_unit_round_trips (x : ℚ) :
    (Charge.from_coulombs (F.fin x)).as_coulombs = F.fin x ∧
    (Charge.from_abcoulombs (F.fin x)).as_abcoulombs = F.fin x ∧
    (Charge.from_statcoulombs (F.fin x)).as_statcoulombs = F.fin x := by
  refine ⟨rfl, ?_, ?_⟩
  · simp [Charge.from_abcoulombs, Charge.from_coulombs, Charge.as_abcoulombs, F.mul, F.div]
  · simp [Charge.from_statcoulombs, Charge.from_coulombs, Charge.as_statcoulombs,
      F.mul, F.div, SPEED_OF_LIGHT]

/-- C5: addition and subtraction of two `Charge` values operate on the
base-unit representation, the result being wrapped via `from_base_units`;
checked against the repository's own `add`/`sub` tests. -/
theorem charge_add_sub_base_units :
    (∀ a b : Charge,
      Charge.add a b = Charge.from_base_units (F.add a.as_base_units b.as_base_units) ∧
      (Charge.add a b).as_base_units = F.add a.as_base_units b.as_base_units ∧
      Charge.sub a b = Charge.from_base_units (F.sub a.as_base_units b.as_base_units) ∧
      (Charge.sub a b).as_base_units = F.sub a.as_base_units b.as_base_units) ∧
    (Charge.add (Charge.from_coulombs (F.fin 20))
      (Charge.from_abcoulombs (F.fin 4))).as_coulombs = F.fin 60 ∧
    (Charge.sub (Charge.from_abcoulombs (F.fin 20))
      (Charge.from_coulombs (F.fin 150))).as_coulombs = F.fin 50 := by
  refine ⟨fun a b => ⟨rfl, rfl, rfl, rfl⟩, ?_, ?_⟩ <;>
    norm_num [Charge.add, Charge.sub, Charge.from_base_units, Charge.from_coulombs,
      Charge.from_abcoulombs, Charge.as_coulombs, Charge.as_base_units,
      F.add, F.sub, F.neg, F.mul]

/-- C6: scalar multiplication is supported in both operand orders and the two
orders produce the same value; `(k * a).as_base_units()` equals
`k * a.as_base_units()` and scalar division scales the base-unit value;
checked against the repository's own `mul`/`div` tests. -/
theorem charge_scalar_mul_div :
    (∀ (k : F) (a : Charge),
      Charge.scalarMul k a = Charge.mul a k ∧
      (Charge.scalarMul k a).as_base_units = F.mul k a.as_base_units ∧
      (Charge.mul a k).as_base_units = F.mul a.as_base_units k ∧
      (Charge.div a k).as_base_units = F.div a.as_base_units k) ∧
    (Charge.mul (Charge.from_coulombs (F.fin 10)) (F.fin 4)).as_abcoulombs = F.fin 4 ∧
    (Charge.scalarMul (F.fin 4) (Charge.from_coulombs (F.fin 10))).as_abcoulombs = F.fin 4 ∧
    (Charge.div (Charge.from_abcoulombs (F.fin 2)) (F.fin 2)).as_coulombs = F.fin 10 := by
  refine ⟨fun k a => ⟨?_, rfl, rfl, rfl⟩, ?_, ?_, ?_⟩
  · unfold Charge.scalarMul Charge.mul
    rw [F.mul_fcomm]
  all_goals
    norm_num [Charge.mul, Charge.scalarMul, Charge.div, Charge.from_base_units,
      Charge.from_coulombs, Charge.from_abcoulombs, Charge.as_abcoulombs,
      Charge.as_coulombs, Charge.as_base_units, F.mul, F.div]

/-- C7: dividing one `Charge` by another yields the dimensionless ratio of
their base-unit values (not a new `Charge`); consequently for each unit `u`
and all values `x`, `y`, `from_u(x) / from_u(y) = x / y` (this holds for all
values of the float model, NaN and infinities included); checked against the
repository's own `div` test. -/
theorem charge_quantity_division :
    (∀ a b : Charge, Charge.divCharge a b = F.div a.as_base_units b.as_base_units) ∧
    (∀ x y : F,
      Charge.divCharge (Charge.from_coulombs x) (Charge.from_coulombs y) = F.div x y ∧
      Charge.divCharge (Charge.from_abcoulombs x) (Charge.from_abcoulombs y) = F.div x y ∧
      Charge.divCharge (Charge.from_statcoulombs x) (Charge.from_statcoulombs y) = F.div x y) ∧
    Charge.divCharge (Charge.from_abcoulombs (F.fin 2))
      (Charge.from_coulombs (F.fin 40)) = F.fin 0.5 := by
  refine ⟨fun a b => rfl, fun x y => ⟨rfl, ?_, ?_⟩, ?_⟩
  · exact F.div_mul_cancel_const 10 (by norm_num) x y
  · exact F.div_div_cancel_const (10 * SPEED_OF_LIGHT) (by norm_num [SPEED_OF_LIGHT]) x y
  · norm_num [Charge.divCharge, Charge.from_abcoulombs, Charge.from_coulombs,
      Charge.as_base_units, F.mul, F.div]

/-- C8: equality and the four order operators on `Charge` delegate to the
float comparison of the base-unit values, so NaN compares unequal and
unordered on either side; `from_coulombs(10) == from_abcoulombs(1)`, and for
`a = from_coulombs(2)`, `b = from_coulombs(4)`: `a < b` and `a <= b` hold
while `a > b` and `a >= b` do not; checked against the repository's own
`eq`/`neq`/`cmp` tests. -/
theorem charge_compare_delegates :
    (∀ a b : Charge,
      Charge.eq a b = F.feq a.as_base_units b.as_base_units ∧
      Charge.lt a b = F.lt a.as_base_units b.as_base_units ∧
      Charge.le a b = F.le a.as_base_units b.as_base_units ∧
      Charge.gt a b = F.lt b.as_base_units a.as_base_units ∧
      Charge.ge a b = F.le b.as_base_units a.as_base_units) ∧
    (∀ a : Charge,
      Charge.eq (Charge.from_base_units F.nan) a = false ∧
      Charge.eq a (Charge.from_base_units F.nan) = false ∧
      Charge.lt (Charge.from_base_units F.nan) a = false ∧
      Charge.lt a (Charge.from_base_units F.nan) = false ∧
      Charge.le (Charge.from_base_units F.nan) a = false ∧
      Charge.le a (Charge.from_base_units F.nan) = false ∧
      Charge.gt (Charge.from_base_units F.nan) a = false ∧
      Charge.gt a (Charge.from_base_units F.nan) = false ∧
      Charge.ge (Charge.from_base_units F.nan) a = false ∧
      Charge.ge a (Charge.from_base_units F.nan) = false) ∧
    Charge.eq (Charge.from_coulombs (F.fin 10)) (Charge.from_abcoulombs (F.fin 1)) = true ∧
    Charge.eq (Charge.from_coulombs (F.fin 2)) (Charge.from_abcoulombs (F.fin 2)) = false ∧
    Charge.lt (Charge.from_coulombs (F.fin 2)) (Charge.from_coulombs (F.fin 4)) = true ∧
    Charge.le (Charge.from_coulombs (F.fin 2)) (Charge.from_coulombs (F.fin 4)) = true ∧
    Charge.gt (Charge.from_coulombs (F.fin 2)) (Charge.from_coulombs (F.fin 4)) = false ∧
    Charge.ge (Charge.from_coulombs (F.fin 2)) (Charge.from_coulombs (F.fin 4)) = false := by
  refine ⟨fun a b => ⟨rfl, rfl, rfl, rfl, rfl⟩, ?_, ?_, ?_, ?_, ?_, ?_, ?_⟩
  · intro a
    obtain ⟨v⟩ := a
    rcases v with q | _ | s <;>
      simp [Charge.eq, Charge.lt, Charge.le, Charge.gt, Charge.ge,
        Charge.from_base_units, Charge.from_coulombs, Charge.as_base_units,
        F.feq, F.lt, F.le]
  all_goals
    norm_num [Charge.eq, Charge.lt, Charge.le, Charge.gt, Charge.ge,
      Charge.from_coulombs, Charge.from_abcoulombs, Charge.as_base_units,
      F.feq, F.lt, F.le, F.mul]

/-- C9: every public operation is a total function over the full float
domain: the constructors, accessors, `from_base_units`/`as_base_units` and
`get_appropriate_units` are defined on every value and compute their pure
formula with no error branch; NaN and infinities simply propagate by the
float semantics; division by zero follows the float rules (`x/0 = ±∞` for
`x ≠ 0`, `0/0 = NaN`) instead of failing. -/
theorem charge_operations_total :
    (∀ v : F,
      (Charge.from_coulombs v).as_coulombs = v ∧
      (Charge.from_abcoulombs v).as_coulombs = F.mul v (F.fin 10) ∧
      (Charge.from_statcoulombs v).as_coulombs = F.div v (F.fin (10 * 299792458)) ∧
      (Charge.from_coulombs v).as_abcoulombs = F.div v (F.fin 10) ∧
      (Charge.from_coulombs v).as_statcoulombs = F.mul v (F.fin (10 * 299792458)) ∧
      (Charge.from_base_units v).as_base_units = v ∧
      (Charge.from_coulombs v).get_appropriate_units ∈ chargeUnitsList) ∧
    ((Charge.from_abcoulombs F.nan).as_coulombs = F.nan ∧
     (Charge.from_statcoulombs F.nan).as_coulombs = F.nan ∧
     (Charge.from_coulombs F.nan).as_abcoulombs = F.nan ∧
     (Charge.from_coulombs F.nan).as_statcoulombs = F.nan) ∧
    (∀ s : Bool,
      (Charge.from_abcoulombs (F.inf s)).as_coulombs = F.inf s ∧
      (Charge.from_statcoulombs (F.inf s)).as_coulombs = F.inf s ∧
      (Charge.from_coulombs (F.inf s)).as_abcoulombs = F.inf s ∧
      (Charge.from_coulombs (F.inf s)).as_statcoulombs = F.inf s) ∧
    (∀ b : Charge,
      (Charge.add (Charge.from_base_units F.nan) b).as_base_units = F.nan ∧
      (Charge.sub (Charge.from_base_units F.nan) b).as_base_units = F.nan ∧
      (Charge.mul (Charge.from_base_units F.nan) (F.fin 2)).as_base_units = F.nan ∧
      Charge.divCharge (Charge.from_base_units F.nan) b = F.nan) ∧
    (∀ q : ℚ, Charge.div (Charge.from_coulombs (F.fin q)) (F.fin 0) =
      Charge.from_base_units (if q = 0 then F.nan else F.inf (decide (0 < q)))) ∧
    Charge.divCharge (Charge.from_coulombs (F.fin 0))
      (Charge.from_coulombs (F.fin 0)) = F.nan := by
  refine ⟨fun v => ⟨rfl, rfl, rfl, rfl, rfl, rfl, ?_⟩, ⟨?_, ?_, rfl, rfl⟩,
    fun s => ⟨?_, ?_, ?_, ?_⟩, fun b => ?_, fun q => ?_, ?_⟩
  · exact pick_mem v chargeUnitsList (by simp [chargeUnitsList])
  · rfl
  · rfl
  · simp [Charge.from_abcoulombs, Charge.from_coulombs, Charge.as_coulombs, F.mul]
  · simp [Charge.from_statcoulombs, Charge.from_coulombs, Charge.as_coulombs,
      F.div, SPEED_OF_LIGHT]
  · simp [Charge.from_coulombs, Charge.as_abcoulombs, F.div]
  · simp [Charge.from_coulombs, Charge.as_statcoulombs, F.mul, SPEED_OF_LIGHT]
  · obtain ⟨w⟩ := b
    rcases w with q | _ | s <;>
      simp [Charge.add, Charge.sub, Charge.mul, Charge.divCharge,
        Charge.from_base_units, Charge.from_coulombs, Charge.as_base_units,
        F.add, F.sub, F.neg, F.mul, F.div]
  · simp [Charge.div, Charge.from_coulombs, Charge.from_base_units,
      Charge.as_base_units, F.div]
  · rfl

/-- C10: the base-unit (coulomb) round trip is exact for every value, finite
or not: `from_coulombs` stores the value unchanged (the constructed `Charge`
is literally the record holding the input) and `as_coulombs` /
`as_base_units` read it back with no arithmetic, and likewise for
`from_base_units`. -/
theorem charge_base_round_trip_exact (v : F) :
    (Charge.from_coulombs v).as_coulombs = v ∧
    (Charge.from_base_units v).as_base_units = v ∧
    Charge.from_coulombs v = Charge.mk v ∧
    Charge.from_base_units v = Charge.mk v :=
  ⟨rfl, rfl, rfl, rfl⟩

end Measurements
